import Mathlib

/-!
Shallow embedding of the Kubeflow-migrations notebooks
(covid lung classification, fingerprint matching, insurance regression,
fraud detection) and proofs about their preprocessing, splitting,
data-generator and pipeline-wiring logic.
-/

namespace KubeflowMigrations

/-! ## Covid notebook: `preprocess_data` (image loading loop)

The covid preprocessing step lists image paths, extracts the class label as
the parent-directory component `imagePath.split(os.path.sep)[-2]`, keeps the
file exactly when that label is `"covid"` or `"normal"`, and appends one
image and one label per retained file.  Images are opaque here: `imread`
stands for the `cv2.imread`/`cvtColor`/`resize` composition. -/

/-- The parent-directory component of a path, `imagePath.split(sep)[-2]`. -/
def parentDir (path : List String) : String :=
  path.getD (path.length - 2) ""

/-- The covid filter: a file qualifies exactly when its parent directory is
`"covid"` or `"normal"`. -/
def qualifiesPath (path : List String) : Bool :=
  parentDir path == "covid" || parentDir path == "normal"

/-- The image-loading loop of the covid `preprocess_data`: one image and one
label appended per qualifying path, in path order. -/
def covidLoadLoop (imread : List String → ℚ) : List (List String) → List ℚ × List String
  | [] => ([], [])
  | p :: ps =>
    let rest := covidLoadLoop imread ps
    if qualifiesPath p then (imread p :: rest.1, parentDir p :: rest.2) else rest

/-- `LabelBinarizer().fit_transform`: encode each label by its position in the
sorted list of distinct classes. -/
def insertSorted (s : String) : List String → List String
  | [] => [s]
  | t :: ts => if s < t then s :: t :: ts else t :: insertSorted s ts

/-- The sorted distinct classes a label encoder fits on. -/
def sortClasses (vs : List String) : List String :=
  vs.dedup.foldr insertSorted []

/-- `LabelBinarizer().fit_transform` / `LabelEncoder().fit_transform` on a
column of strings: each value becomes the index of its class. -/
def labelEncode (vs : List String) : List ℕ :=
  vs.map (fun v => (sortClasses vs).indexOf v)

/-- `keras.utils.to_categorical`: one-hot encode with `max + 1` classes. -/
def toCategorical (ks : List ℕ) : List (List ℕ) :=
  let numClasses := ks.foldr max 0 + 1
  ks.map (fun k => (List.range numClasses).map (fun j => if j = k then 1 else 0))

/-- The covid `preprocess_data` output arrays: normalized image data
(`np.array(data) / 255.0`) and one-hot encoded labels
(`to_categorical(lb.fit_transform(labels))`). -/
def covidPreprocessOut (imread : List String → ℚ) (paths : List (List String)) :
    List ℚ × List (List ℕ) :=
  let dl := covidLoadLoop imread paths
  (dl.1.map (· / 255), toCategorical (labelEncode dl.2))

/-! ## `train_test_split` (sklearn), covid split step and fraud training step

sklearn draws a permutation of the row indices, takes the first
`n_test = ceil(test_size * n)` as the test rows and the remaining
`n - n_test` as the train rows, and applies the same index selection to the
feature and the label array. -/

/-- Select the rows of `xs` at the positions in `idx`. -/
def selectRows (xs : List α) (idx : List ℕ) : List α :=
  idx.filterMap (fun i => xs[i]?)

/-- sklearn's test-set size for a fractional `test_size`: `ceil(f * n)`. -/
def nTestOf (f : ℚ) (n : ℕ) : ℕ :=
  (⌈f * n⌉ : ℤ).toNat

/-- `train_test_split(x, y, test_size)` given the permutation `perm` of row
indices that sklearn draws: returns `(trainX, testX, trainY, testY)` where
the test rows are the first `k` indices of the permutation and the train
rows are the rest. -/
def train_test_split (x : List α) (y : List β) (perm : List ℕ) (k : ℕ) :
    List α × List α × List β × List β :=
  (selectRows x (perm.drop k), selectRows x (perm.take k),
   selectRows y (perm.drop k), selectRows y (perm.take k))

/-- The covid `traintestsplit_data` step: `test_size=0.40`. -/
def covidSplit (data : List α) (labels : List β) (perm : List ℕ) :
    List α × List α × List β × List β :=
  train_test_split data labels perm (nTestOf (2/5) data.length)

/-- The fraud `train_model` step's split: `test_size=0.2`. -/
def fraudSplit (x : List α) (y : List β) (perm : List ℕ) :
    List α × List α × List β × List β :=
  train_test_split x y perm (nTestOf (1/5) x.length)

/-! ## Insurance notebook: label-encoding `preprocess_data`; fraud CSV step -/

/-- The insurance dataframe: categorical columns `sex`, `smoker`, `region`
and the numeric columns, as loaded by `pd.read_csv`. -/
structure InsuranceDF where
  sex : List String
  smoker : List String
  region : List String
  age : List ℚ
  bmi : List ℚ
  children : List ℚ
  charges : List ℚ
deriving DecidableEq

/-- The insurance dataframe after label encoding the categorical columns. -/
structure EncInsuranceDF where
  sex : List ℕ
  smoker : List ℕ
  region : List ℕ
  age : List ℚ
  bmi : List ℚ
  children : List ℚ
  charges : List ℚ
deriving DecidableEq

/-- The insurance `preprocess_data` step: for each of `sex`, `smoker`,
`region`, replace the column by `LabelEncoder().fit_transform` of its
values; the numeric columns pass through; the result is pickled. -/
def insurance_preprocess (df : InsuranceDF) : EncInsuranceDF :=
  { sex := labelEncode df.sex
    smoker := labelEncode df.smoker
    region := labelEncode df.region
    age := df.age
    bmi := df.bmi
    children := df.children
    charges := df.charges }

/-- The fraud `preprocess_data` step: `pd.read_csv` then `to_pickle` — the
loaded dataframe (a list of numeric rows) is written back unchanged. -/
def fraud_preprocess (rows : List (List ℚ)) : List (List ℚ) :=
  rows

/-! ## Fingerprint notebook: `DataGenerator.__getitem__`

The generator holds `label_real_dict`, a dictionary from 6-character keys to
indices into `x_real`; embedded as an association list with distinct keys.
`random.random()` is an idealized uniform draw from `[0, 1)`;
`random.choice(list(dict.items()))` draws a uniformly random position into
the entry list, embedded as a stream `draws` of naturals reduced mod the
dictionary size. -/

/-- The coin guard `random.random() > 0.5` of `__getitem__`. -/
def matchCoin (r : ℚ) : Bool :=
  decide ((1 : ℚ)/2 < r)

/-- The set of idealized-uniform draws from `[0,1)` on which the coin guard
`random.random() > 0.5` selects the matched branch. -/
def coinTrueSet : Set ℝ :=
  {r | r ∈ Set.Ico (0 : ℝ) 1 ∧ 1/2 < r}

/-- The unmatched-reference rejection loop: repeatedly
`random.choice(list(dict.items()))` — embedded as guarded indexing by the
draw stream reduced mod the entry count — until the drawn key differs from
`match_key`.  `fuel` bounds the number of iterations of the embedded loop
(the Python loop is unbounded); `none` stands for no sample being produced
within `fuel` iterations, or for the `random.choice([])` fault. -/
def rejectionLoop (dict : List (String × ℕ)) (matchKey : String) (draws : ℕ → ℕ) :
    ℕ → ℕ → Option (String × ℕ)
  | _, 0 => none
  | step, fuel + 1 =>
    match dict[draws step % dict.length]? with
    | none => none
    | some e =>
      if e.1 ≠ matchKey then some e else rejectionLoop dict matchKey draws (step + 1) fuel

/-- One probe's pairing in `__getitem__`: if the coin lands above 0.5, pair
with `x_real[label_real_dict[match_key]]` and label `1.0`; otherwise pair
with the reference the rejection loop accepts and label `0.0`.  `none`
models a fault (missing key / out-of-range index) or an unproductive loop. -/
def pairForProbe (dict : List (String × ℕ)) (xreal : List ℕ) (matchKey : String)
    (r : ℚ) (draws : ℕ → ℕ) (fuel : ℕ) : Option (ℕ × ℚ) :=
  if matchCoin r then
    match dict.lookup matchKey with
    | some idx => (xreal[idx]?).map (fun img => (img, 1))
    | none => none
  else
    match rejectionLoop dict matchKey draws 0 fuel with
    | some e => (xreal[e.2]?).map (fun img => (img, 0))
    | none => none

/-- The pairing loop over a whole batch: probe `i` uses its own coin `rs i`
and its own draw stream `draws i`. -/
def pairBatch (dict : List (String × ℕ)) (xreal : List ℕ) (keys : List String)
    (rs : ℕ → ℚ) (draws : ℕ → ℕ → ℕ) (fuel : ℕ) : List (Option (ℕ × ℚ)) :=
  (List.range keys.length).map
    (fun i => pairForProbe dict xreal (keys.getD i "") (rs i) (draws i) fuel)

/-- The probe-batch slice and augmentation gate of `__getitem__`:
`x1_batch = self.x[index*batch_size:(index+1)*batch_size]`, and the
imgaug `Sequential` (Gaussian blur + affine), abstracted as `aug`, is
applied to `x1_batch` only under `if self.shuffle:`. -/
def getitemProbes (shuffle : Bool) (aug : ℕ → ℕ) (x : List ℕ)
    (batchSize index : ℕ) : List ℕ :=
  let x1 := (x.drop (index * batchSize)).take batchSize
  if shuffle then x1.map aug else x1

/-- The `shuffle` flag of `train_gen = DataGenerator(..., shuffle=False)` in
the fingerprint `train_model`. -/
def trainGenShuffle : Bool := false

/-- The `shuffle` flag of `val_gen = DataGenerator(..., shuffle=False)` in
the fingerprint `train_model`. -/
def valGenShuffle : Bool := false

/-! ## Fingerprint notebook: `preprocess_data` save sequence

After loading and splitting, the function's local names are fixed; the three
`np.savez` calls then reference names, and a reference to an unbound name
raises `NameError` before the file is written.  The second argument of the
first save is the misspelled `laWhatWhatbel_train`. -/

/-- The local names bound in the fingerprint `preprocess_data` by the time
the `np.savez` calls run. -/
def fingerprintBoundNames : List String :=
  ["data_dir", "prep_data_dir", "x_real", "y_real", "x_easy", "y_easy",
   "x_medium", "y_medium", "x_hard", "y_hard", "x_data", "label_data",
   "x_train", "x_val", "label_train", "label_val"]

/-- The three `np.savez` calls of the fingerprint `preprocess_data`, in
program order: target file and the names of the arrays passed. -/
def fingerprintSavezCalls : List (String × List String) :=
  [("train_data.npz", ["x_train", "laWhatWhatbel_train"]),
   ("val_data.npz", ["x_val", "label_val"]),
   ("real_data.npz", ["x_real", "y_real"])]

/-- Run a sequence of save calls: each call first resolves its argument
names against the bound names (an unbound name raises, modelled as
`Except.error` carrying the name), then writes its file.  Returns the list
of files written. -/
def runSavez (env : List String) : List (String × List String) → Except String (List String)
  | [] => .ok []
  | (file, args) :: rest =>
    match args.find? (fun a => ¬ env.contains a) with
    | some a => .error a
    | none => (runSavez env rest).map (file :: ·)

/-! ## Fingerprint notebook: `evaluate_model` probe draw

`random_idx = random.randint(0, len(x_val))` — Python's `randint` is
inclusive at both ends — then `x_val[random_idx]`, `label_val[random_idx]`. -/

/-- The possible values of `random.randint(0, n)`: the inclusive range. -/
def randintDraws (n : ℕ) : List ℕ :=
  List.range (n + 1)

/-- The guarded embedding of `random_img = x_val[idx]; random_label =
label_val[idx]` in `evaluate_model`: `none` on an out-of-range index. -/
def evalProbe (xval labelval : List ℕ) (idx : ℕ) : Option (ℕ × ℕ) :=
  match xval[idx]?, labelval[idx]? with
  | some a, some b => some (a, b)
  | _, _ => none

/-! ## Pipeline definitions: task graphs

A task's ordering edges come either from an argument wired to another
task's output, or from an explicit `.after(...)` call. -/

/-- An argument of a pipeline task: a pipeline parameter or another task's
declared output. -/
inductive ArgSrc where
  | param (name : String)
  | taskOutput (task : String)
deriving DecidableEq

/-- Whether an argument is wired to another task's declared output. -/
def isTaskOutput : ArgSrc → Bool
  | .taskOutput _ => true
  | .param _ => false

/-- One task instantiation in a pipeline function: its name, its argument
sources in order, and the explicit `.after(...)` dependencies. -/
structure TaskDef where
  name : String
  args : List ArgSrc
  afterDeps : List String
deriving DecidableEq

/-- The task graph built by `covid19_lung_classification_pipeline`. -/
def covidPipeline : List TaskDef :=
  [⟨"download_and_extract", [.param "dataset_url", .param "dataset_file_name"], []⟩,
   ⟨"preprocess_data", [.taskOutput "download_and_extract"], []⟩,
   ⟨"traintestsplit_data", [.taskOutput "preprocess_data", .param "dataset_file_name"], []⟩,
   ⟨"train_model", [.taskOutput "traintestsplit_data"], []⟩,
   ⟨"evaluate_model", [.taskOutput "traintestsplit_data", .taskOutput "train_model"], []⟩,
   ⟨"plot_confusion_matrix",
     [.taskOutput "traintestsplit_data", .taskOutput "train_model", .param "labels"], []⟩,
   ⟨"convert_model_to_onnx", [.taskOutput "train_model"], []⟩,
   ⟨"upload_model",
     [.taskOutput "convert_model_to_onnx", .param "minio_url", .param "minio_user",
      .param "minio_pass", .param "model_name"], []⟩,
   ⟨"deploy_model_with_kserve", [.param "model_name"], ["upload_model"]⟩]

/-- The task graph built by `fingerprint_pipeline`. -/
def fingerprintPipeline : List TaskDef :=
  [⟨"download_and_extract", [.param "dataset_url", .param "dataset_file_name"], []⟩,
   ⟨"preprocess_data", [.taskOutput "download_and_extract"], []⟩,
   ⟨"train_model", [.taskOutput "preprocess_data"], []⟩,
   ⟨"evaluate_model", [.taskOutput "preprocess_data", .taskOutput "train_model"], []⟩,
   ⟨"convert_model_to_onnx", [.taskOutput "train_model"], []⟩,
   ⟨"upload_model",
     [.taskOutput "convert_model_to_onnx", .param "minio_url", .param "minio_user",
      .param "minio_pass", .param "model_name"], []⟩,
   ⟨"deploy_model_with_kserve", [.param "model_name"], ["upload_model"]⟩]

/-- The data-dependency ordering edges of a pipeline: `(src, dst)` whenever
`dst` takes `src`'s declared output as an argument. -/
def dataEdges (p : List TaskDef) : List (String × String) :=
  p.flatMap (fun t => t.args.filterMap
    (fun a => match a with
      | .taskOutput s => some (s, t.name)
      | .param _ => none))

/-- The explicit ordering edges of a pipeline: `(src, dst)` whenever `dst`
declares `.after(src)`. -/
def afterEdges (p : List TaskDef) : List (String × String) :=
  p.flatMap (fun t => t.afterDeps.map (fun s => (s, t.name)))

/-! ## Helper lemmas -/

theorem covidLoadLoop_lengths (imread : List String → ℚ) :
    ∀ paths : List (List String),
      (covidLoadLoop imread paths).1.length = (paths.filter (fun p => qualifiesPath p)).length ∧
      (covidLoadLoop imread paths).2.length = (paths.filter (fun p => qualifiesPath p)).length := by
  intro paths
  induction paths with
  | nil => exact ⟨rfl, rfl⟩
  | cons p ps ih =>
    by_cases h : qualifiesPath p = true
    · simp [covidLoadLoop, h, List.filter_cons, ih.1, ih.2]
    · simp [covidLoadLoop, h, List.filter_cons, ih.1, ih.2]

theorem labelEncode_length (vs : List String) : (labelEncode vs).length = vs.length := by
  simp [labelEncode]

theorem toCategorical_length (ks : List ℕ) : (toCategorical ks).length = ks.length := by
  simp [toCategorical]

theorem selectRows_length (xs : List α) :
    ∀ idx : List ℕ, (∀ i ∈ idx, i < xs.length) → (selectRows xs idx).length = idx.length := by
  intro idx
  induction idx with
  | nil => intro _; rfl
  | cons a as ih =>
    intro h
    have ha : a < xs.length := h a (List.mem_cons_self a as)
    have hxa : xs[a]? = some xs[a] := List.getElem?_eq_getElem ha
    simp only [selectRows, List.filterMap_cons, hxa, List.length_cons]
    have := ih (fun i hi => h i (List.mem_cons_of_mem _ hi))
    simp only [selectRows] at this
    omega

theorem selectRows_getElem (xs : List α) :
    ∀ idx : List ℕ, (∀ i ∈ idx, i < xs.length) →
      ∀ j i : ℕ, idx[j]? = some i → (selectRows xs idx)[j]? = xs[i]? := by
  intro idx
  induction idx with
  | nil =>
    intro _ j i h
    simp at h
  | cons a as ih =>
    intro h j i hj
    have ha : a < xs.length := h a (List.mem_cons_self a as)
    have hxa : xs[a]? = some xs[a] := List.getElem?_eq_getElem ha
    match j with
    | 0 =>
      have : a = i := by simpa using hj
      subst this
      simp [selectRows, List.filterMap_cons, hxa]
    | j' + 1 =>
      have hj' : as[j']? = some i := by simpa using hj
      have := ih (fun i hi => h i (List.mem_cons_of_mem _ hi)) j' i hj'
      simpa [selectRows, List.filterMap_cons, hxa] using this

theorem perm_mem_lt {perm : List ℕ} {n : ℕ} (hp : perm.Perm (List.range n)) :
    ∀ i ∈ perm, i < n := by
  intro i hi
  exact List.mem_range.mp (hp.mem_iff.mp hi)

theorem perm_length {perm : List ℕ} {n : ℕ} (hp : perm.Perm (List.range n)) :
    perm.length = n := by
  rw [hp.length_eq, List.length_range]

theorem nTestOf_le (f : ℚ) (n : ℕ) (hf : f ≤ 1) : nTestOf f n ≤ n := by
  rw [nTestOf, Int.toNat_le]
  refine Int.ceil_le.mpr ?_
  push_cast
  calc f * n ≤ 1 * n := by
        have hn : (0 : ℚ) ≤ n := by positivity
        exact mul_le_mul_of_nonneg_right hf hn
    _ = n := one_mul _

theorem nTestOf_cast (f : ℚ) (n : ℕ) (hf : 0 ≤ f) : ((nTestOf f n : ℕ) : ℤ) = ⌈f * n⌉ := by
  rw [nTestOf, Int.toNat_of_nonneg]
  refine Int.ceil_nonneg ?_
  positivity

theorem train_test_split_sizes (x : List α) (y : List β) (perm : List ℕ) (n k : ℕ)
    (hx : x.length = n) (hy : y.length = n) (hp : perm.Perm (List.range n)) (hk : k ≤ n) :
    (train_test_split x y perm k).2.1.length = k ∧
    (train_test_split x y perm k).1.length = n - k ∧
    (train_test_split x y perm k).2.2.2.length = k ∧
    (train_test_split x y perm k).2.2.1.length = n - k := by
  have hlen : perm.length = n := perm_length hp
  have hmem : ∀ i ∈ perm, i < n := perm_mem_lt hp
  have htake : ∀ i ∈ perm.take k, i < n := fun i hi => hmem i (List.take_subset _ _ hi)
  have hdrop : ∀ i ∈ perm.drop k, i < n := fun i hi => hmem i (List.drop_subset _ _ hi)
  have htake_len : (perm.take k).length = k := by
    rw [List.length_take, hlen]
    omega
  have hdrop_len : (perm.drop k).length = n - k := by
    rw [List.length_drop, hlen]
  refine ⟨?_, ?_, ?_, ?_⟩
  · rw [show (train_test_split x y perm k).2.1 = selectRows x (perm.take k) from rfl,
      selectRows_length x _ (by rw [hx]; exact htake), htake_len]
  · rw [show (train_test_split x y perm k).1 = selectRows x (perm.drop k) from rfl,
      selectRows_length x _ (by rw [hx]; exact hdrop), hdrop_len]
  · rw [show (train_test_split x y perm k).2.2.2 = selectRows y (perm.take k) from rfl,
      selectRows_length y _ (by rw [hy]; exact htake), htake_len]
  · rw [show (train_test_split x y perm k).2.2.1 = selectRows y (perm.drop k) from rfl,
      selectRows_length y _ (by rw [hy]; exact hdrop), hdrop_len]

theorem rejectionLoop_sound (dict : List (String × ℕ)) (matchKey : String) (draws : ℕ → ℕ) :
    ∀ fuel step e, rejectionLoop dict matchKey draws step fuel = some e →
      e ∈ dict ∧ e.1 ≠ matchKey := by
  intro fuel
  induction fuel with
  | zero =>
    intro step e h
    simp [rejectionLoop] at h
  | succ fuel ih =>
    intro step e h
    rw [rejectionLoop] at h
    split at h
    · exact absurd h (by simp)
    · rename_i e0 hlook
      split at h
      · rename_i hne
        cases h
        exact ⟨List.getElem?_mem hlook, hne⟩
      · exact ih (step + 1) e h

theorem rejectionLoop_none_of_all_match (dict : List (String × ℕ)) (matchKey : String)
    (draws : ℕ → ℕ) (hall : ∀ e ∈ dict, e.1 = matchKey) :
    ∀ fuel step, rejectionLoop dict matchKey draws step fuel = none := by
  intro fuel
  induction fuel with
  | zero => intro step; rfl
  | succ fuel ih =>
    intro step
    rw [rejectionLoop]
    split
    · rfl
    · rename_i e0 hlook
      have hm : e0.1 = matchKey := hall e0 (List.getElem?_mem hlook)
      rw [if_neg (by simpa using hm)]
      exact ih (step + 1)

theorem rejectionLoop_some_of_hit (dict : List (String × ℕ)) (matchKey : String)
    (draws : ℕ → ℕ) :
    ∀ fuel step,
      (∃ k < fuel, ∃ e, dict[draws (step + k) % dict.length]? = some e ∧ e.1 ≠ matchKey) →
      ∃ e, rejectionLoop dict matchKey draws step fuel = some e ∧ e.1 ≠ matchKey := by
  intro fuel
  induction fuel with
  | zero =>
    intro step h
    obtain ⟨k, hk, _⟩ := h
    omega
  | succ fuel ih =>
    intro step h
    obtain ⟨k, hk, e, he, hne⟩ := h
    have hpos : 0 < dict.length := by
      rcases Nat.eq_zero_or_pos dict.length with h0 | h0
      · have hnil : dict = [] := List.length_eq_zero.mp h0
        rw [hnil] at he
        simp at he
      · exact h0
    have hlt : draws step % dict.length < dict.length := Nat.mod_lt _ hpos
    have he0 : dict[draws step % dict.length]? = some dict[draws step % dict.length] :=
      List.getElem?_eq_getElem hlt
    rw [rejectionLoop]
    split
    · rename_i hnone
      rw [he0] at hnone
      exact absurd hnone (by simp)
    · rename_i e0 hlook
      by_cases hne0 : e0.1 ≠ matchKey
      · rw [if_pos hne0]
        exact ⟨e0, rfl, hne0⟩
      · rw [if_neg hne0]
        push_neg at hne0
        have hk0 : k ≠ 0 := by
          intro h0
          subst h0
          rw [Nat.add_zero] at he
          rw [hlook] at he
          cases he
          exact hne hne0
        obtain ⟨k', rfl⟩ : ∃ k', k = k' + 1 := ⟨k - 1, by omega⟩
        refine ih (step + 1) ⟨k', by omega, e, ?_, hne⟩
        have harith : step + 1 + k' = step + (k' + 1) := by omega
        rw [harith]
        exact he

theorem coinTrueSet_eq_Ioo : coinTrueSet = Set.Ioo (1/2 : ℝ) 1 := by
  ext r
  simp only [coinTrueSet, Set.mem_setOf_eq, Set.mem_Ico, Set.mem_Ioo]
  constructor
  · rintro ⟨⟨h0, h1⟩, hhalf⟩
    exact ⟨hhalf, h1⟩
  · rintro ⟨hhalf, h1⟩
    exact ⟨⟨by linarith, h1⟩, hhalf⟩

theorem coinTrueSet_volume : MeasureTheory.volume coinTrueSet = ENNReal.ofReal (1/2) := by
  rw [coinTrueSet_eq_Ioo, Real.volume_Ioo]
  norm_num

/-! ## Claim theorems -/

/-- C2 counterexample: the claim says the generators actually used for
training and validation apply augmentation to each fetched probe batch;
but `train_model` constructs them with `shuffle=False`, and the imgaug
pipeline only runs under `if self.shuffle:`.  With an augmentation that
maps every pixel value 0 to 1, the probe batch `[0, 0]` comes back
unaugmented, not `[1, 1]`. -/
theorem train_gen_no_augmentation :
    getitemProbes trainGenShuffle (fun v => v + 1) [0, 0] 2 0 ≠ [1, 1] ∧
    getitemProbes trainGenShuffle (fun v => v + 1) [0, 0] 2 0 = [0, 0] := by
  decide

/-- C2 (amended): `DataGenerator.__getitem__` applies the randomized
geometric/blur augmentation to the sliced probe batch exactly when the
generator's `shuffle` flag is set; the `train_gen` and `val_gen` actually
constructed in the fingerprint `train_model` pass `shuffle=False`, so their
probe batches are returned without augmentation. -/
theorem getitem_augmentation_gated_by_shuffle (aug : ℕ → ℕ) (x : List ℕ) (bs i : ℕ) :
    getitemProbes true aug x bs i = ((x.drop (i * bs)).take bs).map aug ∧
    getitemProbes trainGenShuffle aug x bs i = (x.drop (i * bs)).take bs ∧
    getitemProbes valGenShuffle aug x bs i = (x.drop (i * bs)).take bs :=
  ⟨rfl, rfl, rfl⟩

/-- C3: the first `np.savez` of the fingerprint `preprocess_data` names the
misspelled `laWhatWhatbel_train`, which is not among the function's bound
locals (the bound names do not depend on the input arrays), so every run
that reaches the save sequence raises an unresolved-name fault at the
`train_data.npz` save and no list of written bundles is ever produced — in
particular the train/validation/real bundles are not all written. -/
theorem fingerprint_savez_name_fault :
    runSavez fingerprintBoundNames fingerprintSavezCalls = .error "laWhatWhatbel_train" ∧
    ∀ files : List String, runSavez fingerprintBoundNames fingerprintSavezCalls ≠ .ok files := by
  have h : runSavez fingerprintBoundNames fingerprintSavezCalls =
      .error "laWhatWhatbel_train" := rfl
  refine ⟨h, ?_⟩
  intro files hfiles
  rw [h] at hfiles
  exact Except.noConfusion hfiles

/-- C5: the covid `preprocess_data` outputs data and label arrays whose row
count equals the number of qualifying input files, a file qualifying
exactly when its parent-directory component is `"covid"` or `"normal"`. -/
theorem covid_preprocess_row_count (imread : List String → ℚ) (paths : List (List String)) :
    (covidPreprocessOut imread paths).1.length =
      (paths.filter (fun p => qualifiesPath p)).length ∧
    (covidPreprocessOut imread paths).2.length =
      (paths.filter (fun p => qualifiesPath p)).length := by
  have h := covidLoadLoop_lengths imread paths
  constructor
  · simpa [covidPreprocessOut] using h.1
  · simp only [covidPreprocessOut, toCategorical_length, labelEncode_length]
    exact h.2

/-- C6: the insurance label-encoding step and the fraud CSV-loading step
contain no randomization; running either twice on identical inputs yields
identical serialized outputs. -/
theorem preprocess_deterministic (d d' : InsuranceDF) (g g' : List (List ℚ))
    (hd : d = d') (hg : g = g') :
    insurance_preprocess d = insurance_preprocess d' ∧
    fraud_preprocess g = fraud_preprocess g' := by
  subst hd
  subst hg
  exact ⟨rfl, rfl⟩

/-- C6 witness: both preprocessing steps evaluated twice on a concrete
identical input. -/
theorem preprocess_deterministic_witness :
    insurance_preprocess ⟨["female"], ["yes"], ["southwest"], [19], [27], [0], [16884]⟩ =
      insurance_preprocess ⟨["female"], ["yes"], ["southwest"], [19], [27], [0], [16884]⟩ ∧
    fraud_preprocess [[57, 0, 1]] = fraud_preprocess [[57, 0, 1]] :=
  preprocess_deterministic _ _ _ _ rfl rfl

/-- C8: in the covid and fingerprint pipeline definitions, the only
non-data ordering edge is the single explicit `.after` edge from the upload
step to the deployment step; the deployment step consumes no other step's
output, and no other task declares an explicit ordering edge. -/
theorem pipeline_single_after_edge :
    afterEdges covidPipeline = [("upload_model", "deploy_model_with_kserve")] ∧
    afterEdges fingerprintPipeline = [("upload_model", "deploy_model_with_kserve")] ∧
    (∀ e ∈ dataEdges covidPipeline, e.2 ≠ "deploy_model_with_kserve") ∧
    (∀ e ∈ dataEdges fingerprintPipeline, e.2 ≠ "deploy_model_with_kserve") ∧
    (∀ t ∈ covidPipeline, t.name ≠ "deploy_model_with_kserve" → t.afterDeps = []) ∧
    (∀ t ∈ fingerprintPipeline, t.name ≠ "deploy_model_with_kserve" → t.afterDeps = []) ∧
    (∀ t ∈ covidPipeline, t.name = "deploy_model_with_kserve" →
      (∀ a ∈ t.args, isTaskOutput a = false) ∧ t.afterDeps = ["upload_model"]) ∧
    (∀ t ∈ fingerprintPipeline, t.name = "deploy_model_with_kserve" →
      (∀ a ∈ t.args, isTaskOutput a = false) ∧ t.afterDeps = ["upload_model"]) := by
  decide

/-- C9: `evaluate_model` draws `random_idx = random.randint(0, len(x_val))`,
whose inclusive range contains `len(x_val)`; for any non-empty validation
set, the guarded embedding of `x_val[random_idx]`/`label_val[random_idx]`
returns `none` at that draw. -/
theorem evaluate_probe_draw_out_of_bounds (xval labelval : List ℕ) (_hne : xval ≠ []) :
    xval.length ∈ randintDraws xval.length ∧
    evalProbe xval labelval xval.length = none := by
  constructor
  · simp [randintDraws]
  · have hx : xval[xval.length]? = none := by simp
    simp [evalProbe, hx]

/-- C9 witness: a one-element validation set. -/
theorem evaluate_probe_draw_out_of_bounds_witness :
    [5].length ∈ randintDraws [5].length ∧ evalProbe [5] [7] [5].length = none :=
  evaluate_probe_draw_out_of_bounds [5] [7] (by decide)

/-- C4: for the covid split step (`test_size=0.40`) and the fraud training
step's split (`test_size=0.2`), on `n` aligned rows the produced train and
validation bundles have sizes summing to `n`, and the validation size is
the requested fraction of `n` within rounding (floor or ceiling). -/
theorem split_sizes_sum_and_ratio (data : List α) (labels : List β) (x : List γ) (y : List δ)
    (perm qerm : List ℕ) (n m : ℕ)
    (hd : data.length = n) (hl : labels.length = n) (hp : perm.Perm (List.range n))
    (hx : x.length = m) (hy : y.length = m) (hq : qerm.Perm (List.range m)) :
    ((covidSplit data labels perm).2.1.length + (covidSplit data labels perm).1.length = n ∧
      (((covidSplit data labels perm).2.1.length : ℤ) = ⌊(2/5 : ℚ) * n⌋ ∨
       ((covidSplit data labels perm).2.1.length : ℤ) = ⌈(2/5 : ℚ) * n⌉)) ∧
    ((fraudSplit x y qerm).2.1.length + (fraudSplit x y qerm).1.length = m ∧
      (((fraudSplit x y qerm).2.1.length : ℤ) = ⌊(1/5 : ℚ) * m⌋ ∨
       ((fraudSplit x y qerm).2.1.length : ℤ) = ⌈(1/5 : ℚ) * m⌉)) := by
  have hcovid : covidSplit data labels perm =
      train_test_split data labels perm (nTestOf (2/5) n) := by
    rw [covidSplit, hd]
  have hfraud : fraudSplit x y qerm = train_test_split x y qerm (nTestOf (1/5) m) := by
    rw [fraudSplit, hx]
  have hk1 : nTestOf (2/5) n ≤ n := nTestOf_le _ _ (by norm_num)
  have hk2 : nTestOf (1/5) m ≤ m := nTestOf_le _ _ (by norm_num)
  have hs1 := train_test_split_sizes data labels perm n (nTestOf (2/5) n) hd hl hp hk1
  have hs2 := train_test_split_sizes x y qerm m (nTestOf (1/5) m) hx hy hq hk2
  constructor
  · rw [hcovid]
    refine ⟨?_, Or.inr ?_⟩
    · rw [hs1.1, hs1.2.1]
      omega
    · rw [hs1.1]
      exact nTestOf_cast _ _ (by norm_num)
  · rw [hfraud]
    refine ⟨?_, Or.inr ?_⟩
    · rw [hs2.1, hs2.2.1]
      omega
    · rw [hs2.1]
      exact nTestOf_cast _ _ (by norm_num)

/-- C4 witness: five rows, a concrete permutation; the covid split yields a
validation bundle of 2 rows and the fraud split one of 1 row. -/
theorem split_sizes_sum_and_ratio_witness :
    ((covidSplit [0, 1, 2, 3, 4] [5, 6, 7, 8, 9] [4, 0, 3, 1, 2]).2.1.length +
      (covidSplit [0, 1, 2, 3, 4] [5, 6, 7, 8, 9] [4, 0, 3, 1, 2]).1.length = 5) ∧
    ((fraudSplit [0, 1, 2, 3, 4] [5, 6, 7, 8, 9] [4, 0, 3, 1, 2]).2.1.length +
      (fraudSplit [0, 1, 2, 3, 4] [5, 6, 7, 8, 9] [4, 0, 3, 1, 2]).1.length = 5) :=
  ⟨(split_sizes_sum_and_ratio [0, 1, 2, 3, 4] [5, 6, 7, 8, 9] [0, 1, 2, 3, 4] [5, 6, 7, 8, 9]
      [4, 0, 3, 1, 2] [4, 0, 3, 1, 2] 5 5 rfl rfl (by decide) rfl rfl (by decide)).1.1,
   (split_sizes_sum_and_ratio [0, 1, 2, 3, 4] [5, 6, 7, 8, 9] [0, 1, 2, 3, 4] [5, 6, 7, 8, 9]
      [4, 0, 3, 1, 2] [4, 0, 3, 1, 2] 5 5 rfl rfl (by decide) rfl rfl (by decide)).2.1⟩

/-- C7: the covid preprocessing loop appends one label per retained image,
so its data and label arrays (raw and encoded) have equal lengths; and the
covid split bundles keep features and labels aligned: within each bundle
the lengths agree and row `j` of the feature selection and row `j` of the
label selection come from the same original row index. -/
theorem bundles_row_alignment (imread : List String → ℚ) (paths : List (List String))
    (data : List α) (labels : List β) (perm : List ℕ) (n : ℕ)
    (hd : data.length = n) (hl : labels.length = n) (hp : perm.Perm (List.range n)) :
    (covidLoadLoop imread paths).1.length = (covidLoadLoop imread paths).2.length ∧
    (covidPreprocessOut imread paths).1.length = (covidPreprocessOut imread paths).2.length ∧
    (covidSplit data labels perm).1.length = (covidSplit data labels perm).2.2.1.length ∧
    (covidSplit data labels perm).2.1.length = (covidSplit data labels perm).2.2.2.length ∧
    (∀ j i : ℕ, (perm.take (nTestOf (2/5) data.length))[j]? = some i →
      (covidSplit data labels perm).2.1[j]? = data[i]? ∧
      (covidSplit data labels perm).2.2.2[j]? = labels[i]?) ∧
    (∀ j i : ℕ, (perm.drop (nTestOf (2/5) data.length))[j]? = some i →
      (covidSplit data labels perm).1[j]? = data[i]? ∧
      (covidSplit data labels perm).2.2.1[j]? = labels[i]?) := by
  have hload := covidLoadLoop_lengths imread paths
  have hcount := covid_preprocess_row_count imread paths
  have hcovid : covidSplit data labels perm =
      train_test_split data labels perm (nTestOf (2/5) n) := by
    rw [covidSplit, hd]
  have hk : nTestOf (2/5) n ≤ n := nTestOf_le _ _ (by norm_num)
  have hs := train_test_split_sizes data labels perm n (nTestOf (2/5) n) hd hl hp hk
  have hmem : ∀ i ∈ perm, i < n := perm_mem_lt hp
  have htake : ∀ i ∈ perm.take (nTestOf (2/5) n), i < data.length := by
    rw [hd]
    exact fun i hi => hmem i (List.take_subset _ _ hi)
  have htake' : ∀ i ∈ perm.take (nTestOf (2/5) n), i < labels.length := by
    rw [hl]
    exact fun i hi => hmem i (List.take_subset _ _ hi)
  have hdrop : ∀ i ∈ perm.drop (nTestOf (2/5) n), i < data.length := by
    rw [hd]
    exact fun i hi => hmem i (List.drop_subset _ _ hi)
  have hdrop' : ∀ i ∈ perm.drop (nTestOf (2/5) n), i < labels.length := by
    rw [hl]
    exact fun i hi => hmem i (List.drop_subset _ _ hi)
  refine ⟨hload.1.trans hload.2.symm, hcount.1.trans hcount.2.symm, ?_, ?_, ?_, ?_⟩
  · rw [hcovid, hs.2.1, hs.2.2.2]
  · rw [hcovid, hs.1, hs.2.2.1]
  · intro j i hji
    rw [hd] at hji
    rw [hcovid]
    exact ⟨selectRows_getElem data _ htake j i hji, selectRows_getElem labels _ htake' j i hji⟩
  · intro j i hji
    rw [hd] at hji
    rw [hcovid]
    exact ⟨selectRows_getElem data _ hdrop j i hji, selectRows_getElem labels _ hdrop' j i hji⟩

/-- C7 witness: three rows, permutation `[2, 0, 1]`; the validation bundle
lengths agree and its row 0 is original row 2 in both arrays. -/
theorem bundles_row_alignment_witness :
    (covidSplit [10, 20, 30] [1, 2, 3] [2, 0, 1]).2.1.length =
      (covidSplit [10, 20, 30] [1, 2, 3] [2, 0, 1]).2.2.2.length ∧
    (covidSplit [10, 20, 30] [1, 2, 3] [2, 0, 1]).2.1[0]? = [10, 20, 30][2]? ∧
    (covidSplit [10, 20, 30] [1, 2, 3] [2, 0, 1]).2.2.2[0]? = [1, 2, 3][2]? :=
  have h := bundles_row_alignment (fun _ => 0) [] [10, 20, 30] [1, 2, 3] [2, 0, 1] 3
    rfl rfl (by decide)
  have hpair := h.2.2.2.2.1 0 2 (by
    have h3 : ([10, 20, 30] : List ℕ).length = 3 := rfl
    have hc : (⌈(2/5 : ℚ) * ((3 : ℕ) : ℚ)⌉ : ℤ) = 2 := by
      rw [Int.ceil_eq_iff]
      norm_num
    have hn : nTestOf (2/5 : ℚ) 3 = 2 := by
      rw [nTestOf, hc]
      rfl
    rw [h3, hn]
    decide)
  ⟨h.2.2.2.1, hpair.1, hpair.2⟩

/-- C10: the unmatched-reference rejection loop produces no sample — at any
iteration bound — when every key of `label_real_dict` equals the probe's
match key; and whenever the draw stream eventually selects an entry with a
different key, some iteration bound suffices and the accepted entry's key
differs from the match key. -/
theorem rejection_loop_termination (dict : List (String × ℕ)) (matchKey : String)
    (draws : ℕ → ℕ) :
    ((∀ e ∈ dict, e.1 = matchKey) →
      ∀ fuel step, rejectionLoop dict matchKey draws step fuel = none) ∧
    ((∃ k e, dict[draws k % dict.length]? = some e ∧ e.1 ≠ matchKey) →
      ∃ fuel e, rejectionLoop dict matchKey draws 0 fuel = some e ∧ e.1 ≠ matchKey) := by
  constructor
  · intro hall fuel step
    exact rejectionLoop_none_of_all_match dict matchKey draws hall fuel step
  · rintro ⟨k, e, he, hne⟩
    obtain ⟨e', he'⟩ := rejectionLoop_some_of_hit dict matchKey draws (k + 1) 0
      ⟨k, by omega, e, by simpa using he, hne⟩
    exact ⟨k + 1, e', he'⟩

/-- C10 witness: with a single-subject dictionary the loop yields no sample
at bound 3; with a second subject and the identity draw stream a bound
suffices. -/
theorem rejection_loop_termination_witness :
    rejectionLoop [("000001", 0)] "000001" (fun j => j) 0 3 = none ∧
    ∃ fuel e, rejectionLoop [("000001", 0), ("000002", 1)] "000001" (fun j => j) 0 fuel =
      some e ∧ e.1 ≠ "000001" :=
  ⟨(rejection_loop_termination [("000001", 0)] "000001" (fun j => j)).1 (by decide) 3 0,
   (rejection_loop_termination [("000001", 0), ("000002", 1)] "000001" (fun j => j)).2
     ⟨1, ("000002", 1), by decide, by decide⟩⟩

/-- C1: per probe, `__getitem__` branches on `random.random() > 0.5` — an
event of probability 1/2 under the uniform draw from `[0, 1)` — pairing the
probe with its ground-truth reference `x_real[label_real_dict[match_key]]`
and label `1.0` on the matched branch, and otherwise with a reference whose
key differs from the match key and label `0.0`; every returned label is
binary; each non-matching dictionary entry is selected by exactly one value
of a single uniform draw over the entries (so the accepted rejection sample
is uniform over non-matching references); and in a batch, probe `i` is
paired using its own coin and draw stream. -/
theorem getitem_pairing (dict : List (String × ℕ)) (xreal : List ℕ) (keys : List String)
    (matchKey : String) (r : ℚ) (draws : ℕ → ℕ) (fuel : ℕ) (mi img : ℕ)
    (hnodup : (dict.map Prod.fst).Nodup)
    (hlookup : dict.lookup matchKey = some mi)
    (himg : xreal[mi]? = some img) :
    MeasureTheory.volume coinTrueSet = ENNReal.ofReal (1/2) ∧
    (matchCoin r = true →
      pairForProbe dict xreal matchKey r draws fuel = some (img, 1)) ∧
    (matchCoin r = false →
      ∀ p : ℕ × ℚ, pairForProbe dict xreal matchKey r draws fuel = some p →
        p.2 = 0 ∧ ∃ e ∈ dict, e.1 ≠ matchKey ∧ xreal[e.2]? = some p.1) ∧
    (∀ p : ℕ × ℚ, pairForProbe dict xreal matchKey r draws fuel = some p →
      p.2 = 0 ∨ p.2 = 1) ∧
    (∀ e ∈ dict, e.1 ≠ matchKey →
      (Finset.univ.filter (fun j : Fin dict.length => dict.get j = e)).card = 1) ∧
    (∀ i, i < keys.length → ∀ rs : ℕ → ℚ, ∀ ds : ℕ → ℕ → ℕ,
      (pairBatch dict xreal keys rs ds fuel)[i]? =
        some (pairForProbe dict xreal (keys.getD i "") (rs i) (ds i) fuel)) := by
  have hmatched : matchCoin r = true →
      pairForProbe dict xreal matchKey r draws fuel = some (img, 1) := by
    intro hc
    simp [pairForProbe, hc, hlookup, himg]
  have hunmatched : matchCoin r = false →
      ∀ p : ℕ × ℚ, pairForProbe dict xreal matchKey r draws fuel = some p →
        p.2 = 0 ∧ ∃ e ∈ dict, e.1 ≠ matchKey ∧ xreal[e.2]? = some p.1 := by
    intro hc p hp
    rw [pairForProbe, hc] at hp
    simp only [Bool.false_eq_true, if_false] at hp
    cases hrl : rejectionLoop dict matchKey draws 0 fuel with
    | none =>
      rw [hrl] at hp
      exact absurd hp (by simp)
    | some e =>
      rw [hrl] at hp
      simp only [Option.map_eq_some'] at hp
      obtain ⟨a, ha, hpa⟩ := hp
      obtain ⟨hmem, hne⟩ := rejectionLoop_sound dict matchKey draws fuel 0 e hrl
      subst hpa
      exact ⟨rfl, e, hmem, hne, ha⟩
  refine ⟨coinTrueSet_volume, hmatched, hunmatched, ?_, ?_, ?_⟩
  · intro p hp
    cases hc : matchCoin r with
    | true =>
      have := hmatched hc
      rw [this] at hp
      cases hp
      exact Or.inr rfl
    | false =>
      exact Or.inl ((hunmatched hc p hp).1)
  · intro e he hne
    have hdnodup : dict.Nodup := hnodup.of_map
    have hinj : Function.Injective dict.get := List.nodup_iff_injective_get.mp hdnodup
    obtain ⟨j0, hj0⟩ := List.mem_iff_get.mp he
    rw [Finset.card_eq_one]
    refine ⟨j0, ?_⟩
    ext j
    simp only [Finset.mem_filter, Finset.mem_univ, true_and, Finset.mem_singleton]
    constructor
    · intro hj
      exact hinj (hj.trans hj0.symm)
    · rintro rfl
      exact hj0
  · intro i hi rs ds
    simp [pairBatch, List.getElem?_map, List.getElem?_range, hi]

/-- C1 witness: two reference subjects; with coin value `3/4` the probe is
paired with its own reference at label 1, and with coin value `1/4` the
returned pair carries label 0 and a non-matching reference. -/
theorem getitem_pairing_witness :
    pairForProbe [("000001", 0), ("000002", 1)] [10, 20] "000001" (3/4) (fun _ => 1) 1 =
      some (10, 1) ∧
    ((20, (0 : ℚ)).2 = 0 ∧ ∃ e ∈ [("000001", 0), ("000002", 1)], e.1 ≠ "000001" ∧
      [10, 20][e.2]? = some (20, (0 : ℚ)).1) :=
  have hc1 : matchCoin (3/4 : ℚ) = true := by
    simp only [matchCoin, decide_eq_true_eq]
    norm_num
  have hc0 : matchCoin (1/4 : ℚ) = false := by
    simp only [matchCoin, decide_eq_false_iff_not]
    norm_num
  have hrl : rejectionLoop [("000001", 0), ("000002", 1)] "000001" (fun _ => 1) 0 1 =
      some ("000002", 1) := by decide
  have hp : pairForProbe [("000001", 0), ("000002", 1)] [10, 20] "000001" (1/4)
      (fun _ => 1) 1 = some (20, 0) := by
    rw [pairForProbe, hc0]
    simp only [Bool.false_eq_true, if_false]
    rw [hrl]
    rfl
  ⟨(getitem_pairing [("000001", 0), ("000002", 1)] [10, 20] [] "000001" (3/4) (fun _ => 1) 1
      0 10 (by decide) (by decide) (by decide)).2.1 hc1,
   (getitem_pairing [("000001", 0), ("000002", 1)] [10, 20] [] "000001" (1/4) (fun _ => 1) 1
      0 10 (by decide) (by decide) (by decide)).2.2.1 hc0 (20, 0) hp⟩

end KubeflowMigrations
